import Mathlib

/-!
# Verification of the Lorenz-attractor integrator core

Shallow embedding of the self-contained logic of `src/main.rs`:
the explicit-Euler Lorenz integrator (`lorenz_system`'s loop body),
the 50-iteration per-tick loop, the generic `map_range` utility,
the per-step HSLA color derivation, and the spawned trajectory
segments.  Real-number values (`f32` in the source) are modelled by
exact rationals; for the claim about division-by-zero behaviour of
`map_range` a dedicated type `F32` additionally models the IEEE-754
special values (infinities and NaN) with exact finite arithmetic.
-/

namespace Lorenz

/-- Model of `bevy`'s `Vec3` as used by the program: an (x, y, z)
position with real (here: rational) coordinates.  Mirrors
`LorenzPostition { translation: Vec3 }`. -/
structure Vec3 where
  x : ℚ
  y : ℚ
  z : ℚ
deriving DecidableEq, Repr

/-- `const A: f32 = 10.;` (the Lorenz σ parameter). -/
def A : ℚ := 10

/-- `const B: f32 = 8. / 3.;` (the Lorenz β parameter). -/
def B : ℚ := 8 / 3

/-- `const C: f32 = 28.;` (the Lorenz ρ parameter). -/
def C : ℚ := 28

/-- `const DT: f32 = 0.001;` (the integration timestep). -/
def DT : ℚ := 1 / 1000

/-- The generic range mapper of `src/main.rs`:
`to_range.0 + (s - from_range.0) * (to_range.1 - to_range.0) / (from_range.1 - from_range.0)`,
generic over any type with addition, subtraction, multiplication and
division, exactly like the Rust `map_range<T>`.  (Rust's tuple
components `.0`/`.1` are Lean's `.1`/`.2`.) -/
def map_range {T : Type} [Add T] [Sub T] [Mul T] [Div T]
    (from_range : T × T) (to_range : T × T) (s : T) : T :=
  to_range.1 + (s - from_range.1) * (to_range.2 - to_range.1) / (from_range.2 - from_range.1)

/-- `let dx = A * (lorenz.translation.y - lorenz.translation.x);` -/
def lorenz_dx (t : Vec3) : ℚ := A * (t.y - t.x)

/-- `let dy = lorenz.translation.x * (C - lorenz.translation.z) - lorenz.translation.y;` -/
def lorenz_dy (t : Vec3) : ℚ := t.x * (C - t.z) - t.y

/-- `let dz = lorenz.translation.x * lorenz.translation.y - B * lorenz.translation.z;` -/
def lorenz_dz (t : Vec3) : ℚ := t.x * t.y - B * t.z

/-- The HSLA color handed to `Color::hsla(h, 0.8, l, 0.5)`. -/
structure Hsla where
  h : ℚ
  s : ℚ
  l : ℚ
  a : ℚ
deriving DecidableEq, Repr

/-- A trajectory segment: the two endpoints of the `LineStrip`
`points: vec![previous_translation, lorenz.translation]`. -/
structure Segment where
  a : Vec3
  b : Vec3
deriving DecidableEq, Repr

/-- One entity spawned per loop iteration: the line segment mesh and
its `LineMaterial` color. -/
structure Spawned where
  seg : Segment
  color : Hsla
deriving DecidableEq, Repr

/-- One iteration of the `for _ in 0..50` loop body of `lorenz_system`:
snapshot `previous_translation`, compute the three derivatives from the
current state, then update `x`, `y`, `z` in place in that order, compute
`h` and `l` from the updated position, and spawn the segment with its
color.  Returns the updated position and the spawned entity. -/
def lorenzIteration (t0 : Vec3) : Vec3 × Spawned :=
  let previous_translation := t0
  let dx := lorenz_dx t0
  let dy := lorenz_dy t0
  let dz := lorenz_dz t0
  let t1 : Vec3 := { t0 with x := t0.x + dx * DT }
  let t2 : Vec3 := { t1 with y := t1.y + dy * DT }
  let t3 : Vec3 := { t2 with z := t2.z + dz * DT }
  let h := map_range (-13, 13) (25, 35) t3.x
  let l := map_range (-28, 28) (3/10, 7/10) t3.y
  (t3, { seg := { a := previous_translation, b := t3 },
         color := { h := h, s := 8/10, l := l, a := 1/2 } })

/-- The position update of one loop iteration (one explicit Euler step). -/
def lorenzStep (t : Vec3) : Vec3 := (lorenzIteration t).1

/-- `n` chained iterations of the loop body, returning the final
position and the list of spawned entities in spawn order. -/
def lorenzLoop : ℕ → Vec3 → Vec3 × List Spawned
  | 0, t => (t, [])
  | n + 1, t =>
    let r := lorenzIteration t
    let rest := lorenzLoop n r.1
    (rest.1, r.2 :: rest.2)

/-- The per-tick update function `lorenz_system`: the `for _ in 0..50`
loop over the loop body. -/
def lorenz_system (t : Vec3) : Vec3 × List Spawned := lorenzLoop 50 t

/-- `setup` inserts `LorenzPostition { translation: Vec3::new(0.1, 0., 0.1) }`. -/
def initial_position : Vec3 := { x := 1/10, y := 0, z := 1/10 }

/-- The simulation position after `n` invocations of the `Update`
system `lorenz_system`, starting from the resource inserted by `setup`. -/
def appPosition : ℕ → Vec3
  | 0 => initial_position
  | n + 1 => (lorenz_system (appPosition n)).1

/-- All entities spawned during the first `n` ticks when the simulation
starts at position `t`, in spawn order. -/
def runSpawns : ℕ → Vec3 → List Spawned
  | 0, _ => []
  | n + 1, t => (lorenz_system t).2 ++ runSpawns n (lorenz_system t).1

/-- The segments of all entities spawned during the first `n` ticks
starting at `t`, in spawn order. -/
def runSegments (n : ℕ) (t : Vec3) : List Segment :=
  (runSpawns n t).map Spawned.seg

/-- A model of `f32` retaining the IEEE-754 special values: a finite
value (carried exactly as a rational, ignoring rounding, which is
irrelevant to the special-value propagation claims), the two
infinities, and NaN. Signed zero is collapsed to the single zero. -/
inductive F32 where
  | finite : ℚ → F32
  | inf : F32
  | neginf : F32
  | nan : F32
deriving DecidableEq, Repr

/-- An `F32` is finite iff it is neither an infinity nor NaN. -/
def F32.isFinite : F32 → Bool
  | .finite _ => true
  | _ => false

/-- IEEE-754 addition on the `F32` model (exact on finite values). -/
def F32.add : F32 → F32 → F32
  | .nan, _ => .nan
  | _, .nan => .nan
  | .finite x, .finite y => .finite (x + y)
  | .finite _, .inf => .inf
  | .finite _, .neginf => .neginf
  | .inf, .finite _ => .inf
  | .inf, .inf => .inf
  | .inf, .neginf => .nan
  | .neginf, .finite _ => .neginf
  | .neginf, .inf => .nan
  | .neginf, .neginf => .neginf

/-- IEEE-754 subtraction on the `F32` model (exact on finite values). -/
def F32.sub : F32 → F32 → F32
  | .nan, _ => .nan
  | _, .nan => .nan
  | .finite x, .finite y => .finite (x - y)
  | .finite _, .inf => .neginf
  | .finite _, .neginf => .inf
  | .inf, .finite _ => .inf
  | .inf, .inf => .nan
  | .inf, .neginf => .inf
  | .neginf, .finite _ => .neginf
  | .neginf, .inf => .neginf
  | .neginf, .neginf => .nan

/-- IEEE-754 multiplication on the `F32` model (exact on finite values;
zero times an infinity is NaN). -/
def F32.mul : F32 → F32 → F32
  | .nan, _ => .nan
  | _, .nan => .nan
  | .finite x, .finite y => .finite (x * y)
  | .finite x, .inf => if x = 0 then .nan else if 0 < x then .inf else .neginf
  | .finite x, .neginf => if x = 0 then .nan else if 0 < x then .neginf else .inf
  | .inf, .finite y => if y = 0 then .nan else if 0 < y then .inf else .neginf
  | .inf, .inf => .inf
  | .inf, .neginf => .neginf
  | .neginf, .finite y => if y = 0 then .nan else if 0 < y then .neginf else .inf
  | .neginf, .inf => .neginf
  | .neginf, .neginf => .inf

/-- IEEE-754 division on the `F32` model (exact on finite values;
`0/0` is NaN, a nonzero finite value divided by zero is a signed
infinity, an infinity divided by an infinity is NaN). -/
def F32.div : F32 → F32 → F32
  | .nan, _ => .nan
  | _, .nan => .nan
  | .finite x, .finite y =>
    if y = 0 then (if x = 0 then .nan else if 0 < x then .inf else .neginf)
    else .finite (x / y)
  | .finite _, .inf => .finite 0
  | .finite _, .neginf => .finite 0
  | .inf, .finite y => if 0 ≤ y then .inf else .neginf
  | .inf, .inf => .nan
  | .inf, .neginf => .nan
  | .neginf, .finite y => if 0 ≤ y then .neginf else .inf
  | .neginf, .inf => .nan
  | .neginf, .neginf => .nan

instance : Add F32 := ⟨F32.add⟩

instance : Sub F32 := ⟨F32.sub⟩

instance : Mul F32 := ⟨F32.mul⟩

instance : Div F32 := ⟨F32.div⟩

lemma F32.sub_self_cases (c : F32) : c - c = F32.finite 0 ∨ c - c = F32.nan := by
  cases c with
  | finite q => left; show F32.sub _ _ = _; simp [F32.sub]
  | inf => right; rfl
  | neginf => right; rfl
  | nan => right; rfl

lemma F32.div_zero_not_finite (d : F32) : (d / F32.finite 0).isFinite = false := by
  cases d with
  | finite x =>
    show (F32.div _ _).isFinite = false
    by_cases hx : x = 0
    · simp [F32.div, hx, F32.isFinite]
    · by_cases hp : 0 < x <;> simp [F32.div, hx, hp, F32.isFinite]
  | inf => rfl
  | neginf => rfl
  | nan => rfl

lemma F32.div_nan (d : F32) : d / F32.nan = F32.nan := by
  cases d <;> rfl

lemma F32.add_not_finite (a b : F32) (hb : b.isFinite = false) :
    (a + b).isFinite = false := by
  cases a <;> cases b <;> simp_all [F32.isFinite, HAdd.hAdd, Add.add, F32.add]

lemma lorenzIteration_snd (t : Vec3) :
    (lorenzIteration t).2 =
      { seg := { a := t, b := lorenzStep t },
        color := { h := map_range (-13, 13) (25, 35) (lorenzStep t).x,
                   s := 8/10,
                   l := map_range (-28, 28) (3/10, 7/10) (lorenzStep t).y,
                   a := 1/2 } } := rfl

lemma lorenzLoop_fst (n : ℕ) (t : Vec3) :
    (lorenzLoop n t).1 = lorenzStep^[n] t := by
  induction n generalizing t with
  | zero => rfl
  | succ n ih => simp [lorenzLoop, ih, Function.iterate_succ_apply, lorenzStep]

lemma lorenzLoop_snd (n : ℕ) (t : Vec3) :
    (lorenzLoop n t).2 =
      (List.range n).map (fun i => (lorenzIteration (lorenzStep^[i] t)).2) := by
  induction n generalizing t with
  | zero => rfl
  | succ n ih =>
    simp only [lorenzLoop, ih, List.range_succ_eq_map, List.map_cons, List.map_map,
      Function.iterate_zero_apply, List.cons.injEq, true_and]
    apply List.map_congr_left
    intro i _
    simp [Function.comp, Function.iterate_succ_apply, lorenzStep]

lemma lorenzLoop_add (m n : ℕ) (t : Vec3) :
    lorenzLoop (m + n) t =
      ((lorenzLoop n (lorenzLoop m t).1).1,
       (lorenzLoop m t).2 ++ (lorenzLoop n (lorenzLoop m t).1).2) := by
  induction m generalizing t with
  | zero => simp [lorenzLoop]
  | succ m ih => simp [Nat.succ_add, lorenzLoop, ih]

lemma runSpawns_eq_loop (n : ℕ) (t : Vec3) :
    runSpawns n t = (lorenzLoop (50 * n) t).2 := by
  induction n generalizing t with
  | zero => rfl
  | succ n ih =>
    have h : 50 * (n + 1) = 50 + 50 * n := by ring
    simp [runSpawns, lorenz_system, ih, h, lorenzLoop_add]

lemma runSpawns_eq (n : ℕ) (t : Vec3) :
    runSpawns n t =
      (List.range (50 * n)).map (fun i => (lorenzIteration (lorenzStep^[i] t)).2) := by
  rw [runSpawns_eq_loop, lorenzLoop_snd]

lemma runSegments_eq (n : ℕ) (t : Vec3) :
    runSegments n t =
      (List.range (50 * n)).map
        (fun i => { a := lorenzStep^[i] t, b := lorenzStep^[i+1] t : Segment }) := by
  rw [runSegments, runSpawns_eq, List.map_map]
  apply List.map_congr_left
  intro i _
  simp [Function.comp, lorenzIteration_snd, Function.iterate_succ_apply', lorenzStep]

lemma length_runSegments (n : ℕ) (t : Vec3) :
    (runSegments n t).length = 50 * n := by
  rw [runSegments_eq, List.length_map, List.length_range]

/-- C1: one integrator step with σ=10, β=8/3, ρ=28 and dt=0.001 returns
exactly (x + σ·(y−x)·dt, y + (x·(ρ−z)−y)·dt, z + (x·y−β·z)·dt), all
three derivatives computed from the pre-step values of x, y and z (in
the rational model every position is finite). -/
theorem step_uses_prestep_values (t : Vec3) :
    lorenzStep t =
      { x := t.x + A * (t.y - t.x) * DT,
        y := t.y + (t.x * (C - t.z) - t.y) * DT,
        z := t.z + (t.x * t.y - B * t.z) * DT } := rfl

/-- C2: `map_range` returns lo₂ + (v − lo₁)·(hi₂ − lo₂)/(hi₁ − lo₁);
it is a total pure function of its arguments with no validation of the
ranges. -/
theorem map_range_formula (lo1 hi1 lo2 hi2 v : ℚ) :
    map_range (lo1, hi1) (lo2, hi2) v =
      lo2 + (v - lo1) * (hi2 - lo2) / (hi1 - lo1) := rfl

/-- C3: one invocation of the per-tick update advances the position by
exactly 50 sequential integrator steps, each chained to the previous
step's output: the resulting position is the 50-fold composition of the
single-step function. -/
theorem tick_is_fifty_chained_steps (t : Vec3) :
    (lorenz_system t).1 = lorenzStep^[50] t :=
  lorenzLoop_fst 50 t

/-- C4: one step from (0.1, 0, 0.1) computes dx = −1, dy = 2.79,
dz = −4/15 (≈ −0.2667) and the new position
(0.099, 0.00279, 187/1875 ≈ 0.099733). -/
theorem concrete_first_step :
    lorenz_dx { x := 1/10, y := 0, z := 1/10 } = -1 ∧
    lorenz_dy { x := 1/10, y := 0, z := 1/10 } = 279/100 ∧
    lorenz_dz { x := 1/10, y := 0, z := 1/10 } = -4/15 ∧
    lorenzStep { x := 1/10, y := 0, z := 1/10 } =
      { x := 99/1000, y := 279/100000, z := 187/1875 } := by
  refine ⟨?_, ?_, ?_, ?_⟩ <;>
    norm_num [lorenz_dx, lorenz_dy, lorenz_dz, lorenzStep, lorenzIteration, A, B, C, DT]

/-- C5: the origin is a fixed point of the integrator: one step from
(0, 0, 0) yields exactly (0, 0, 0). -/
theorem origin_fixed_point :
    lorenzStep { x := 0, y := 0, z := 0 } = { x := 0, y := 0, z := 0 } := by
  norm_num [lorenzStep, lorenzIteration, lorenz_dx, lorenz_dy, lorenz_dz, A, B, C, DT]

/-- C6: for each integration step the color handed to the host is HSLA
with hue = map_range from (−13, 13) to (25, 35) of the current
(post-step) x, lightness = map_range from (−28, 28) to (0.3, 0.7) of
the current y, saturation 0.8, alpha 0.5 — both for a single loop
iteration and for every entity spawned during any run (whose segment's
second endpoint is the then-current position). -/
theorem step_color_formula :
    (∀ t : Vec3,
      ((lorenzIteration t).2).color =
        { h := map_range (-13, 13) (25, 35) (lorenzStep t).x,
          s := 8/10,
          l := map_range (-28, 28) (3/10, 7/10) (lorenzStep t).y,
          a := 1/2 }) ∧
    (∀ (n : ℕ) (t : Vec3), ∀ sp ∈ runSpawns n t,
      sp.color =
        { h := map_range (-13, 13) (25, 35) sp.seg.b.x,
          s := 8/10,
          l := map_range (-28, 28) (3/10, 7/10) sp.seg.b.y,
          a := 1/2 }) := by
  constructor
  · intro t
    rfl
  · intro n t sp hsp
    rw [runSpawns_eq] at hsp
    rcases List.mem_map.mp hsp with ⟨i, _, rfl⟩
    rfl

/-- C7: mapping v from an interval (a, b) with a ≠ b to the same
interval returns v exactly (in the rational model, exactly rather than
up to floating-point tolerance). -/
theorem map_range_identity (a b v : ℚ) (h : a ≠ b) :
    map_range (a, b) (a, b) v = v := by
  have hb : b - a ≠ 0 := sub_ne_zero.mpr (Ne.symm h)
  show a + (v - a) * (b - a) / (b - a) = v
  rw [mul_div_assoc, div_self hb, mul_one]
  ring

/-- Witness for C7 at the concrete input a = 0, b = 1, v = 5. -/
theorem map_range_identity_witness :
    (0 : ℚ) ≠ 1 ∧ map_range ((0 : ℚ), 1) (0, 1) 5 = 5 :=
  ⟨by norm_num, map_range_identity 0 1 5 (by norm_num)⟩

/-- C8: with equal source-range bounds `map_range` still returns (does
not crash) and the result is non-finite (NaN or an infinity) in the
IEEE special-value model; in particular mapping 5 from (5, 5) to (0, 1)
yields NaN. -/
theorem map_range_degenerate :
    (∀ c lo2 hi2 v : F32, (map_range (c, c) (lo2, hi2) v).isFinite = false) ∧
    map_range (F32.finite 5, F32.finite 5) (F32.finite 0, F32.finite 1)
      (F32.finite 5) = F32.nan := by
  constructor
  · intro c lo2 hi2 v
    show (lo2 + (v - c) * (hi2 - lo2) / (c - c)).isFinite = false
    apply F32.add_not_finite
    rcases F32.sub_self_cases c with h | h
    · rw [h]
      exact F32.div_zero_not_finite _
    · rw [h, F32.div_nan]
      rfl
  · show F32.finite 0 + (F32.finite 5 - F32.finite 5) * (F32.finite 1 - F32.finite 0) /
        (F32.finite 5 - F32.finite 5) = F32.nan
    have h5 : F32.finite 5 - F32.finite 5 = F32.finite 0 := by
      show F32.sub _ _ = _
      norm_num [F32.sub]
    have h10 : F32.finite 1 - F32.finite 0 = F32.finite 1 := by
      show F32.sub _ _ = _
      norm_num [F32.sub]
    rw [h5, h10]
    show F32.add (F32.finite 0) (F32.div (F32.mul (F32.finite 0) (F32.finite 1)) (F32.finite 0)) = F32.nan
    norm_num [F32.mul, F32.div, F32.add]

/-- C9: at startup the simulation position is exactly (0.1, 0, 0.1) and
the first per-tick invocation of the integrator starts from it. -/
theorem startup_position :
    appPosition 0 = { x := 1/10, y := 0, z := 1/10 } ∧
    appPosition 1 = (lorenz_system { x := 1/10, y := 0, z := 1/10 }).1 :=
  ⟨rfl, rfl⟩

/-- C10: every spawned segment is (position before its step, position
after its step), and consecutive spawned segments — within a tick and
across tick boundaries — share an endpoint, forming a connected
polyline. -/
theorem spawned_segments_connected (n : ℕ) (t : Vec3) (i : ℕ)
    (h : i + 1 < (runSegments n t).length) :
    ∃ s1 s2 : Segment,
      (runSegments n t)[i]? = some s1 ∧
      (runSegments n t)[i+1]? = some s2 ∧
      s1.b = lorenzStep s1.a ∧ s2.b = lorenzStep s2.a ∧ s2.a = s1.b := by
  have hlen : (runSegments n t).length = 50 * n := length_runSegments n t
  have hi1 : i + 1 < 50 * n := hlen ▸ h
  have hi : i < 50 * n := Nat.lt_of_succ_lt hi1
  refine ⟨{ a := lorenzStep^[i] t, b := lorenzStep^[i+1] t },
          { a := lorenzStep^[i+1] t, b := lorenzStep^[i+2] t },
          ?_, ?_, ?_, ?_, rfl⟩
  · rw [runSegments_eq, List.getElem?_map, List.getElem?_range hi]
    rfl
  · rw [runSegments_eq, List.getElem?_map, List.getElem?_range hi1]
    rfl
  · simp [Function.iterate_succ_apply']
  · simp [Function.iterate_succ_apply']

/-- Witness for C10: first two segments of a one-tick run starting at
the origin. -/
theorem spawned_segments_connected_witness :
    0 + 1 < (runSegments 1 { x := 0, y := 0, z := 0 }).length ∧
    ∃ s1 s2 : Segment,
      (runSegments 1 { x := 0, y := 0, z := 0 })[0]? = some s1 ∧
      (runSegments 1 { x := 0, y := 0, z := 0 })[0+1]? = some s2 ∧
      s1.b = lorenzStep s1.a ∧ s2.b = lorenzStep s2.a ∧ s2.a = s1.b :=
  ⟨by rw [length_runSegments]; norm_num,
   spawned_segments_connected 1 { x := 0, y := 0, z := 0 } 0
     (by rw [length_runSegments]; norm_num)⟩

end Lorenz
